import Mathlib

/-!
Shallow embedding of `src/scripts/fix_compile_commands.py`, a script that
loads a JSON compilation database, strips configured compiler flags from
each entry's `command` string, and writes the result back (with a backup
when rewriting in place).

Strings are modelled as `List Char`; a Python string literal `"s"` appears
as `("s").data`.  JSON values parsed by `json.load` are modelled by the
inductive type `JsonVal`; Python dictionaries originating from JSON objects
are association lists of key/value pairs (keys are unique in a parse
result, and the operations below agree with Python `dict` semantics on
duplicate-free lists).  Whitespace for `str.split()` is the ASCII
whitespace set recognised by Python; the recursions are kept structural so
that every definition evaluates by kernel reduction.
-/

/-- A JSON value as produced by Python's `json.load`: `None`, `bool`,
`int` (numbers are modelled as integers; no claim depends on floats),
`str`, `list`, `dict`. -/
inductive JsonVal where
  | null : JsonVal
  | bool : Bool → JsonVal
  | num : Int → JsonVal
  | str : List Char → JsonVal
  | arr : List JsonVal → JsonVal
  | obj : List (List Char × JsonVal) → JsonVal

/-- Python exceptions the script can raise: `json.JSONDecodeError` from
`json.load`, `KeyError` from `entry['command']` on a dict without the key,
`TypeError` from indexing or `in` on an unsupported type, and
`AttributeError` from calling `.replace` on a non-string. -/
inductive PyErr where
  | jsonDecodeError : PyErr
  | keyError : PyErr
  | typeError : PyErr
  | attributeError : PyErr
  deriving DecidableEq

mutual

/-- Decidable structural equality on JSON values; Python's `==` on values
returned by `json.load` is exactly this structural equality. -/
def decEqV : (v w : JsonVal) → Decidable (v = w)
  | .null, .null => .isTrue rfl
  | .null, .bool _ => .isFalse (fun h => nomatch h)
  | .null, .num _ => .isFalse (fun h => nomatch h)
  | .null, .str _ => .isFalse (fun h => nomatch h)
  | .null, .arr _ => .isFalse (fun h => nomatch h)
  | .null, .obj _ => .isFalse (fun h => nomatch h)
  | .bool _, .null => .isFalse (fun h => nomatch h)
  | .bool a, .bool b =>
    if h : a = b then .isTrue (congrArg JsonVal.bool h)
    else .isFalse (fun hh => h (JsonVal.bool.inj hh))
  | .bool _, .num _ => .isFalse (fun h => nomatch h)
  | .bool _, .str _ => .isFalse (fun h => nomatch h)
  | .bool _, .arr _ => .isFalse (fun h => nomatch h)
  | .bool _, .obj _ => .isFalse (fun h => nomatch h)
  | .num _, .null => .isFalse (fun h => nomatch h)
  | .num _, .bool _ => .isFalse (fun h => nomatch h)
  | .num a, .num b =>
    if h : a = b then .isTrue (congrArg JsonVal.num h)
    else .isFalse (fun hh => h (JsonVal.num.inj hh))
  | .num _, .str _ => .isFalse (fun h => nomatch h)
  | .num _, .arr _ => .isFalse (fun h => nomatch h)
  | .num _, .obj _ => .isFalse (fun h => nomatch h)
  | .str _, .null => .isFalse (fun h => nomatch h)
  | .str _, .bool _ => .isFalse (fun h => nomatch h)
  | .str _, .num _ => .isFalse (fun h => nomatch h)
  | .str a, .str b =>
    if h : a = b then .isTrue (congrArg JsonVal.str h)
    else .isFalse (fun hh => h (JsonVal.str.inj hh))
  | .str _, .arr _ => .isFalse (fun h => nomatch h)
  | .str _, .obj _ => .isFalse (fun h => nomatch h)
  | .arr _, .null => .isFalse (fun h => nomatch h)
  | .arr _, .bool _ => .isFalse (fun h => nomatch h)
  | .arr _, .num _ => .isFalse (fun h => nomatch h)
  | .arr _, .str _ => .isFalse (fun h => nomatch h)
  | .arr xs, .arr ys =>
    match decEqLV xs ys with
    | .isTrue h => .isTrue (congrArg JsonVal.arr h)
    | .isFalse h => .isFalse (fun hh => h (JsonVal.arr.inj hh))
  | .arr _, .obj _ => .isFalse (fun h => nomatch h)
  | .obj _, .null => .isFalse (fun h => nomatch h)
  | .obj _, .bool _ => .isFalse (fun h => nomatch h)
  | .obj _, .num _ => .isFalse (fun h => nomatch h)
  | .obj _, .str _ => .isFalse (fun h => nomatch h)
  | .obj _, .arr _ => .isFalse (fun h => nomatch h)
  | .obj xs, .obj ys =>
    match decEqMV xs ys with
    | .isTrue h => .isTrue (congrArg JsonVal.obj h)
    | .isFalse h => .isFalse (fun hh => h (JsonVal.obj.inj hh))

/-- Decidable equality on JSON value lists. -/
def decEqLV : (xs ys : List JsonVal) → Decidable (xs = ys)
  | [], [] => .isTrue rfl
  | [], _ :: _ => .isFalse (fun h => nomatch h)
  | _ :: _, [] => .isFalse (fun h => nomatch h)
  | x :: xs, y :: ys =>
    match decEqV x y, decEqLV xs ys with
    | .isTrue h1, .isTrue h2 => .isTrue (by rw [h1, h2])
    | .isFalse h1, _ => .isFalse (fun hh => h1 (List.cons.inj hh).1)
    | _, .isFalse h2 => .isFalse (fun hh => h2 (List.cons.inj hh).2)

/-- Decidable equality on JSON object member lists. -/
def decEqMV : (xs ys : List (List Char × JsonVal)) → Decidable (xs = ys)
  | [], [] => .isTrue rfl
  | [], _ :: _ => .isFalse (fun h => nomatch h)
  | _ :: _, [] => .isFalse (fun h => nomatch h)
  | (k, v) :: xs, (k2, v2) :: ys =>
    if hk : k = k2 then
      match decEqV v v2, decEqMV xs ys with
      | .isTrue h1, .isTrue h2 => .isTrue (by rw [hk, h1, h2])
      | .isFalse h1, _ =>
        .isFalse (fun hh => h1 (congrArg Prod.snd (List.cons.inj hh).1))
      | _, .isFalse h2 => .isFalse (fun hh => h2 (List.cons.inj hh).2)
    else .isFalse (fun hh => hk (congrArg Prod.fst (List.cons.inj hh).1))

end

instance : DecidableEq JsonVal := decEqV

/-- The characters Python's `str.split()` treats as whitespace (ASCII). -/
def pySpace (c : Char) : Bool :=
  c == ' ' || c == '\t' || c == '\n' || c == '\r' || c == '\x0b' || c == '\x0c'

/-- Accumulator loop for `str.split()`; `tok` holds the current token in
reverse order. -/
def splitWSAux (s : List Char) (tok : List Char) : List (List Char) :=
  match s with
  | [] => if tok.isEmpty then [] else [tok.reverse]
  | c :: rest =>
    if pySpace c then
      if tok.isEmpty then splitWSAux rest [] else tok.reverse :: splitWSAux rest []
    else splitWSAux rest (c :: tok)

/-- Python `str.split()` with no argument: split on runs of whitespace,
discarding empty tokens and leading/trailing whitespace. -/
def splitWS (s : List Char) : List (List Char) :=
  splitWSAux s []

/-- Python `' '.join(tokens)`. -/
def joinTokens : List (List Char) → List Char
  | [] => []
  | [t] => t
  | t :: t2 :: ts => t ++ ' ' :: joinTokens (t2 :: ts)

/-- The source's whitespace cleanup `' '.join(s.split())` (line 36). -/
def normSpace (s : List Char) : List Char :=
  joinTokens (splitWS s)

/-- Scanning loop of Python `s.replace(pat, '')`: remove every occurrence
of `pat`, scanning left to right and continuing after each removed
occurrence (non-overlapping).  The fuel argument, instantiated with the
length of the scanned string, only makes the recursion structural: each
step consumes at least one character. -/
def removeAllGo (pat : List Char) : Nat → List Char → List Char
  | _, [] => []
  | 0, s => s
  | fuel + 1, c :: rest =>
    if pat ≠ [] ∧ pat.isPrefixOf (c :: rest) = true then
      removeAllGo pat fuel (rest.drop (pat.length - 1))
    else c :: removeAllGo pat fuel rest

/-- Python `s.replace(pat, '')` (`pat = []` leaves `s` unchanged, matching
`s.replace('', '')`). -/
def removeAll (pat s : List Char) : List Char :=
  removeAllGo pat s.length s

/-- Python `pat in s` for strings: substring containment. -/
def isSubstr (pat : List Char) : List Char → Bool
  | [] => pat.isEmpty
  | c :: rest => pat.isPrefixOf (c :: rest) || isSubstr pat rest

/-- The single configured flag text `'-mno-direct-extern-access'`. -/
def flagText : List Char := ("-mno-direct-extern-access").data

/-- The flag list of the source (lines 17-19). -/
def flagsToRemove : List (List Char) :=
  [flagText]

/-- One iteration of the source's inner loop (lines 33-36) on a string
command: if the flag occurs, remove all its occurrences and then collapse
whitespace; otherwise leave the command untouched. -/
def fixFlagStr (cmd : List Char) (flag : List Char) : List Char :=
  if isSubstr flag cmd then normSpace (removeAll flag cmd) else cmd

/-- The full inner loop of lines 33-36 on a string command. -/
def fixStr (cmd : List Char) : List Char :=
  flagsToRemove.foldl fixFlagStr cmd

/-- Python `entry['command']` lookup on a dict, as an association list
(keys of a parsed dict are unique, so first match equals dict lookup). -/
def dictGet : List (List Char × JsonVal) → List Char → Option JsonVal
  | [], _ => none
  | (k, v) :: rest, key => if k = key then some v else dictGet rest key

/-- Python `entry['command'] = v` on a dict: replace the value bound to
the key (unique in a parsed dict). -/
def dictSet : List (List Char × JsonVal) → List Char → JsonVal →
    List (List Char × JsonVal)
  | [], _, _ => []
  | (k, w) :: rest, key, v =>
    if k = key then (k, v) :: dictSet rest key v else (k, w) :: dictSet rest key v

/-- One iteration of lines 33-36 on the current `modified_command` value:
`flag in modified_command` (TypeError on non-iterables, element membership
on lists, key membership on dicts) and, when it holds,
`.replace`/whitespace cleanup (AttributeError on non-strings). -/
def applyFlagStep (flag : List Char) (v : JsonVal) : Except PyErr JsonVal :=
  match v with
  | .str s => .ok (.str (fixFlagStr s flag))
  | .arr xs =>
    if xs.any (fun x => decide (x = JsonVal.str flag)) then .error .attributeError
    else .ok (.arr xs)
  | .obj kvs =>
    if kvs.any (fun kv => kv.1 == flag) then .error .attributeError else .ok (.obj kvs)
  | _ => .error .typeError

/-- The inner flag loop of lines 33-36 on the command value. -/
def applyFlags : List (List Char) → JsonVal → Except PyErr JsonVal
  | [], v => .ok v
  | flag :: rest, v =>
    match applyFlagStep flag v with
    | .error e => .error e
    | .ok v2 => applyFlags rest v2

/-- The key `'command'`. -/
def cmdKey : List Char := ("command").data

/-- The body of the `for entry in commands` loop (lines 28-40) for one
entry: read `entry['command']`, run the flag loop, and when the result
differs (Python `!=`) store it back and report the entry as modified. -/
def processEntry (entry : JsonVal) : Except PyErr (JsonVal × Bool) :=
  match entry with
  | .obj kvs =>
    match dictGet kvs cmdKey with
    | none => .error .keyError
    | some originalCommand =>
      match applyFlags flagsToRemove originalCommand with
      | .error e => .error e
      | .ok modifiedCommand =>
        if modifiedCommand = originalCommand then .ok (.obj kvs, false)
        else .ok (.obj (dictSet kvs cmdKey modifiedCommand), true)
  | _ => .error .typeError

/-- The `for entry in commands` loop (lines 28-40) over a parsed array:
returns the rewritten entries and `modified_count`. -/
def processList : List JsonVal → Except PyErr (List JsonVal × Nat)
  | [] => .ok ([], 0)
  | e :: rest =>
    match processEntry e with
    | .error err => .error err
    | .ok (e2, modified) =>
      match processList rest with
      | .error err => .error err
      | .ok (rest2, n) => .ok (e2 :: rest2, (if modified then 1 else 0) + n)

/-- Lines 25-40 on the value returned by `json.load`.  A non-list top
level raises `TypeError` when the first iterated element is indexed by
`'command'` (dict iteration yields string keys, string iteration yields
one-character strings, and `None`/`bool`/`int` are not iterable); an empty
string or empty dict iterates zero times and passes through. -/
def processCommands : JsonVal → Except PyErr (JsonVal × Nat)
  | .arr entries =>
    match processList entries with
    | .error e => .error e
    | .ok (entries2, n) => .ok (.arr entries2, n)
  | .str s => if s.isEmpty then .ok (.str s, 0) else .error .typeError
  | .obj kvs => if kvs.isEmpty then .ok (.obj kvs, 0) else .error .typeError
  | _ => .error .typeError

/-- `json.load(f)` (lines 22-23): the argument is the outcome of JSON
parsing (`none` when the file text is not valid JSON, in which case a
`JSONDecodeError` propagates); the parsed value is returned with no shape
validation of any kind. -/
def jsonLoad (parseResult : Option JsonVal) : Except PyErr JsonVal :=
  match parseResult with
  | none => .error .jsonDecodeError
  | some v => .ok v

/-- Hexadecimal digit (lowercase), for `\uXXXX` escapes. -/
def hexDigit (n : Nat) : Char :=
  if n < 10 then Char.ofNat (48 + n) else Char.ofNat (87 + n)

/-- Four lowercase hex digits. -/
def hex4 (n : Nat) : List Char :=
  [hexDigit (n / 4096 % 16), hexDigit (n / 256 % 16), hexDigit (n / 16 % 16),
    hexDigit (n % 16)]

/-- A `\uXXXX` escape. -/
def uEscape (n : Nat) : List Char :=
  '\\' :: 'u' :: hex4 n

/-- Escaping of one character in a JSON string, as Python's `json.dump`
with its default `ensure_ascii=True`: printable ASCII other than `"` and
backslash is kept, the short escapes are used where they exist, and
everything else becomes `\uXXXX` (a surrogate pair beyond U+FFFF). -/
def escapeChar (c : Char) : List Char :=
  if c = '"' then ['\\', '"']
  else if c = '\\' then ['\\', '\\']
  else if c = '\n' then ['\\', 'n']
  else if c = '\r' then ['\\', 'r']
  else if c = '\t' then ['\\', 't']
  else if c = '\x08' then ['\\', 'b']
  else if c = '\x0c' then ['\\', 'f']
  else if 32 ≤ c.toNat ∧ c.toNat ≤ 126 then [c]
  else if c.toNat < 65536 then uEscape c.toNat
  else uEscape (55296 + (c.toNat - 65536) / 1024) ++ uEscape (56320 + (c.toNat - 65536) % 1024)

/-- A JSON string literal with quotes and escapes. -/
def quoteJson (s : List Char) : List Char :=
  '"' :: (s.map escapeChar).flatten ++ ['"']

/-- The indentation prefix at nesting depth `k` for `indent=2`. -/
def indentChars (k : Nat) : List Char :=
  List.replicate (2 * k) ' '

mutual

/-- `json.dump(v, f, indent=2)` at nesting depth `k`: 2-space indentation,
`', '`-free item separator `',\n'`, key separator `': '`. -/
def dumpsVal (k : Nat) : JsonVal → List Char
  | .null => ("null").data
  | .bool true => ("true").data
  | .bool false => ("false").data
  | .num n => (Int.repr n).data
  | .str s => quoteJson s
  | .arr [] => ['[', ']']
  | .arr (x :: xs) =>
    '[' :: '\n' :: (indentChars (k + 1) ++ dumpsVal (k + 1) x ++ dumpsArr (k + 1) xs)
      ++ '\n' :: indentChars k ++ [']']
  | .obj [] => ['\x7b', '\x7d']
  | .obj ((key, val) :: kvs) =>
    '\x7b' :: '\n' :: (indentChars (k + 1) ++ quoteJson key ++ ':' :: ' ' ::
      dumpsVal (k + 1) val ++ dumpsObj (k + 1) kvs) ++ '\n' :: indentChars k ++ ['\x7d']

/-- Remaining array items, each preceded by `',\n'` and indentation. -/
def dumpsArr (k : Nat) : List JsonVal → List Char
  | [] => []
  | x :: xs => ',' :: '\n' :: indentChars k ++ dumpsVal k x ++ dumpsArr k xs

/-- Remaining object members, each preceded by `',\n'` and indentation. -/
def dumpsObj (k : Nat) : List (List Char × JsonVal) → List Char
  | [] => []
  | (key, val) :: kvs =>
    ',' :: '\n' :: indentChars k ++ quoteJson key ++ ':' :: ' ' :: dumpsVal k val
      ++ dumpsObj k kvs

end

/-- The text `json.dump(v, f, indent=2)` writes. -/
def dumps (v : JsonVal) : List Char :=
  dumpsVal 0 v

/-- `Path.with_suffix` helper: scanning the reversed path, strip the last
extension of the final component (nothing is stripped when the final
component has no dot or only a leading dot). -/
def stripExtRev : List Char → Option (List Char)
  | [] => none
  | c :: rest =>
    if c = '/' then none
    else if c = '.' then
      match rest with
      | [] => none
      | d :: _ => if d = '/' then none else some rest
    else stripExtRev rest

/-- `input_file.with_suffix('.json.backup')` (line 46). -/
def backupPath (p : List Char) : List Char :=
  (match stripExtRev p.reverse with
   | none => p
   | some rev => rev.reverse) ++ (".json.backup").data

/-- `fix_compile_commands(input_file, output_file)` (lines 10-55) on the
parse outcome of the input file: load, rewrite, and on success the list of
file writes in order (backup first when `output_file == input_file`, then
the output), each a path paired with the dumped text, together with
`modified_count`.  Any exception propagates before any file is written. -/
def fixCompileCommands (inputFile outputFile : List Char) (parsed : Option JsonVal) :
    Except PyErr (List (List Char × List Char) × Nat) :=
  match jsonLoad parsed with
  | .error e => .error e
  | .ok commands =>
    match processCommands commands with
    | .error e => .error e
    | .ok (commands2, modifiedCount) =>
      if outputFile = inputFile then
        .ok ([(backupPath inputFile, dumps commands2), (outputFile, dumps commands2)],
          modifiedCount)
      else
        .ok ([(outputFile, dumps commands2)], modifiedCount)

/-- The conventional input path of the `__main__` block (line 58). -/
def defaultPath : List Char := ("build/compile_commands.json").data

/-- Observable outcome of one process run: exit status, messages printed
to the error stream, paths opened for reading, and file writes performed
(path and content, in order). -/
structure MainResult where
  exitCode : Nat
  errorOutput : List (List Char)
  readPaths : List (List Char)
  writes : List (List Char × List Char)

/-- Diagnostic name of an uncaught Python exception (the traceback's final
line names the exception class). -/
def pyErrName : PyErr → List Char
  | .jsonDecodeError => ("json.decoder.JSONDecodeError").data
  | .keyError => ("KeyError: 'command'").data
  | .typeError => ("TypeError").data
  | .attributeError => ("AttributeError").data

/-- The `__main__` block (lines 57-64): if the input path does not exist,
print an error to stderr and exit 1 without reading or writing anything;
otherwise run `fix_compile_commands` in place on the default path.  An
uncaught exception exits with status 1 after the read but before any
write; a completed run exits 0. -/
def mainModel (inputExists : Bool) (parsed : Option JsonVal) : MainResult :=
  if inputExists then
    match fixCompileCommands defaultPath defaultPath parsed with
    | .ok (ws, _) => ⟨0, [], [defaultPath], ws⟩
    | .error e => ⟨1, [pyErrName e], [defaultPath], []⟩
  else
    ⟨1, [("Error: build/compile_commands.json not found!").data], [], []⟩

/-- The `command` value of an entry, when the entry is a dict that has
one. -/
def entryCmd : JsonVal → Option JsonVal
  | .obj kvs => dictGet kvs cmdKey
  | _ => none

/-- An entry whose `command`, if a string, contains no configured flag. -/
def entryFlagFree (e : JsonVal) : Bool :=
  match entryCmd e with
  | some (.str s) => !(isSubstr flagText s)
  | _ => true

/-- The number of positions at which the `command` value differs between
two entry lists. -/
def countDiffCmd (es es2 : List JsonVal) : Nat :=
  ((es.zip es2).filter (fun p => decide (entryCmd p.1 ≠ entryCmd p.2))).length

/-- An entry with its `command` value masked, for stating that rewriting
touches nothing else: keys, key order, entry structure and all values of
keys other than `command` are untouched. -/
def stripCmd : JsonVal → JsonVal
  | .obj kvs => .obj (kvs.map (fun kv => if kv.1 = cmdKey then (kv.1, .null) else kv))
  | v => v

/-- No two consecutive space characters. -/
def noDoubleSpace : List Char → Bool
  | [] => true
  | [_] => true
  | c :: d :: rest => !(c == ' ' && d == ' ') && noDoubleSpace (d :: rest)

/-- Modelled from the spec: the expected input shape, "a JSON array of
objects containing a `command` string field", for comparison with what the
load step actually checks. -/
def specWellShaped (v : JsonVal) : Bool :=
  match v with
  | .arr es =>
    es.all (fun e =>
      match e with
      | .obj kvs =>
        match dictGet kvs cmdKey with
        | some (.str _) => true
        | _ => false
      | _ => false)
  | _ => false

/-! ## Helper lemmas -/

theorem dictGet_dictSet_self (kvs : List (List Char × JsonVal)) (key : List Char)
    (w v : JsonVal) (h : dictGet kvs key = some w) :
    dictGet (dictSet kvs key v) key = some v := by
  induction kvs with
  | nil => simp [dictGet] at h
  | cons kv rest ih =>
    obtain ⟨k1, v1⟩ := kv
    by_cases hk : k1 = key
    · simp [dictGet, dictSet, hk]
    · simp only [dictGet, dictSet, hk, if_false, if_neg hk] at h ⊢
      exact ih h

theorem stripCmd_dictSet (kvs : List (List Char × JsonVal)) (v : JsonVal) :
    stripCmd (.obj (dictSet kvs cmdKey v)) = stripCmd (.obj kvs) := by
  simp only [stripCmd, JsonVal.obj.injEq]
  induction kvs with
  | nil => simp [dictSet]
  | cons kv rest ih =>
    obtain ⟨k1, v1⟩ := kv
    by_cases hk : k1 = cmdKey
    · simpa [dictSet, hk] using ih
    · simpa [dictSet, hk] using ih

theorem isSubstr_correct (pat s : List Char) : isSubstr pat s = true ↔ pat <:+: s := by
  induction s with
  | nil => simp [isSubstr, List.infix_nil, List.isEmpty_iff]
  | cons c rest ih =>
    simp only [isSubstr, Bool.or_eq_true, List.isPrefixOf_iff_prefix, ih,
      List.infix_cons_iff]

theorem fixStr_of_substr (cmd : List Char) (h : isSubstr flagText cmd = true) :
    fixStr cmd = normSpace (removeAll flagText cmd) := by
  simp [fixStr, flagsToRemove, fixFlagStr, h]

theorem fixStr_of_not_substr (cmd : List Char) (h : isSubstr flagText cmd = false) :
    fixStr cmd = cmd := by
  simp [fixStr, flagsToRemove, fixFlagStr, h]

theorem processEntry_ok_cases (e e2 : JsonVal) (b : Bool)
    (h : processEntry e = .ok (e2, b)) :
    (b = false ∧ e2 = e) ∨
    (b = true ∧ ∃ kvs s, e = .obj kvs ∧ dictGet kvs cmdKey = some (.str s) ∧
      isSubstr flagText s = true ∧
      JsonVal.str (normSpace (removeAll flagText s)) ≠ JsonVal.str s ∧
      e2 = .obj (dictSet kvs cmdKey (.str (normSpace (removeAll flagText s))))) := by
  cases e with
  | null => simp [processEntry] at h
  | bool _ => simp [processEntry] at h
  | num _ => simp [processEntry] at h
  | str _ => simp [processEntry] at h
  | arr _ => simp [processEntry] at h
  | obj kvs =>
    cases hg : dictGet kvs cmdKey with
    | none => simp [processEntry, hg] at h
    | some orig =>
      cases orig with
      | null => simp [processEntry, hg, applyFlags, flagsToRemove, applyFlagStep] at h
      | bool _ => simp [processEntry, hg, applyFlags, flagsToRemove, applyFlagStep] at h
      | num _ => simp [processEntry, hg, applyFlags, flagsToRemove, applyFlagStep] at h
      | arr xs =>
        by_cases hmem : xs.any (fun x => decide (x = JsonVal.str flagText)) = true
        · simp [processEntry, hg, applyFlags, flagsToRemove, applyFlagStep, hmem] at h
        · simp [processEntry, hg, applyFlags, flagsToRemove, applyFlagStep, hmem] at h
          exact Or.inl ⟨h.2, h.1.symm⟩
      | obj kvs2 =>
        by_cases hmem : kvs2.any (fun kv => kv.1 == flagText) = true
        · simp [processEntry, hg, applyFlags, flagsToRemove, applyFlagStep, hmem] at h
        · simp [processEntry, hg, applyFlags, flagsToRemove, applyFlagStep, hmem] at h
          exact Or.inl ⟨h.2, h.1.symm⟩
      | str s =>
        by_cases hsub : isSubstr flagText s = true
        · by_cases heq :
            JsonVal.str (normSpace (removeAll flagText s)) = JsonVal.str s
          · simp [processEntry, hg, applyFlags, flagsToRemove, applyFlagStep,
              fixFlagStr, hsub, heq] at h
            exact Or.inl ⟨h.2, h.1.symm⟩
          · simp [processEntry, hg, applyFlags, flagsToRemove, applyFlagStep,
              fixFlagStr, hsub, heq] at h
            exact Or.inr ⟨h.2, kvs, s, rfl, hg, hsub, heq, h.1.symm⟩
        · simp [processEntry, hg, applyFlags, flagsToRemove, applyFlagStep,
            fixFlagStr, hsub] at h
          exact Or.inl ⟨h.2, h.1.symm⟩

theorem processEntry_stripCmd (e e2 : JsonVal) (b : Bool)
    (h : processEntry e = .ok (e2, b)) : stripCmd e2 = stripCmd e := by
  rcases processEntry_ok_cases e e2 b h with ⟨_, rfl⟩ | ⟨_, kvs, s, rfl, _, _, _, rfl⟩
  · rfl
  · exact stripCmd_dictSet kvs _

theorem processEntry_cmd_diff (e e2 : JsonVal) (b : Bool)
    (h : processEntry e = .ok (e2, b)) :
    b = true ↔ entryCmd e ≠ entryCmd e2 := by
  rcases processEntry_ok_cases e e2 b h with ⟨hb, rfl⟩ | ⟨hb, kvs, s, rfl, hg, _, hne, rfl⟩
  · simp [hb]
  · have h2 := dictGet_dictSet_self kvs cmdKey _
      (JsonVal.str (normSpace (removeAll flagText s))) hg
    simp only [hb, true_iff, entryCmd, hg, h2]
    intro hc
    exact hne (Option.some.inj hc).symm

theorem processEntry_stable (e e2 : JsonVal) (b : Bool)
    (h : processEntry e = .ok (e2, b)) (hff : entryFlagFree e2 = true) :
    processEntry e2 = .ok (e2, false) := by
  rcases processEntry_ok_cases e e2 b h with ⟨hb, rfl⟩ | ⟨hb, kvs, s, rfl, hg, _, _, rfl⟩
  · rw [hb] at h
    exact h
  · have h2 := dictGet_dictSet_self kvs cmdKey _
      (JsonVal.str (normSpace (removeAll flagText s))) hg
    have hm : isSubstr flagText (normSpace (removeAll flagText s)) = false := by
      simpa [entryFlagFree, entryCmd, h2] using hff
    simp [processEntry, h2, applyFlags, flagsToRemove, applyFlagStep, fixFlagStr, hm]

theorem countDiffCmd_cons (e e2 : JsonVal) (rest rest2 : List JsonVal) :
    countDiffCmd (e :: rest) (e2 :: rest2) =
      (if entryCmd e ≠ entryCmd e2 then 1 else 0) + countDiffCmd rest rest2 := by
  by_cases hd : entryCmd e ≠ entryCmd e2
  · simp [countDiffCmd, List.zip_cons_cons, List.filter_cons, hd, Nat.add_comm]
  · simp [countDiffCmd, List.zip_cons_cons, List.filter_cons, hd]

theorem processList_stripCmd (es : List JsonVal) :
    ∀ es2 n, processList es = .ok (es2, n) → es2.map stripCmd = es.map stripCmd := by
  induction es with
  | nil =>
    intro es2 n h
    simp [processList] at h
    simp [h.1]
  | cons e rest ih =>
    intro es2 n h
    cases he : processEntry e with
    | error err => simp [processList, he] at h
    | ok p =>
      obtain ⟨e2, b⟩ := p
      cases hr : processList rest with
      | error err => simp [processList, he, hr] at h
      | ok q =>
        obtain ⟨rest2, m⟩ := q
        simp only [processList, he, hr, Except.ok.injEq, Prod.mk.injEq] at h
        rw [← h.1]
        simp [List.map_cons, processEntry_stripCmd e e2 b he, ih rest2 m hr]

theorem processList_count (es : List JsonVal) :
    ∀ es2 n, processList es = .ok (es2, n) → n = countDiffCmd es es2 := by
  induction es with
  | nil =>
    intro es2 n h
    simp [processList] at h
    obtain ⟨h1, h2⟩ := h
    subst h1
    simp [countDiffCmd, ← h2]
  | cons e rest ih =>
    intro es2 n h
    cases he : processEntry e with
    | error err => simp [processList, he] at h
    | ok p =>
      obtain ⟨e2, b⟩ := p
      cases hr : processList rest with
      | error err => simp [processList, he, hr] at h
      | ok q =>
        obtain ⟨rest2, m⟩ := q
        simp only [processList, he, hr, Except.ok.injEq, Prod.mk.injEq] at h
        rw [← h.1, ← h.2, countDiffCmd_cons]
        have hb := processEntry_cmd_diff e e2 b he
        have hm := ih rest2 m hr
        cases b with
        | false => simp [hm, (by simpa using hb : ¬ entryCmd e ≠ entryCmd e2)]
        | true => simp [hm, hb.mp rfl]

theorem processList_stable (es : List JsonVal) :
    ∀ es2 n, processList es = .ok (es2, n) → es2.all entryFlagFree = true →
      processList es2 = .ok (es2, 0) := by
  induction es with
  | nil =>
    intro es2 n h _
    simp [processList] at h
    obtain ⟨h1, h2⟩ := h
    subst h1
    rfl
  | cons e rest ih =>
    intro es2 n h hall
    cases he : processEntry e with
    | error err => simp [processList, he] at h
    | ok p =>
      obtain ⟨e2, b⟩ := p
      cases hr : processList rest with
      | error err => simp [processList, he, hr] at h
      | ok q =>
        obtain ⟨rest2, m⟩ := q
        simp only [processList, he, hr, Except.ok.injEq, Prod.mk.injEq] at h
        rw [← h.1] at hall ⊢
        simp only [List.all_cons, Bool.and_eq_true] at hall
        have h1 := processEntry_stable e e2 b he hall.1
        have h2 := ih rest2 m hr hall.2
        simp [processList, h1, h2]

theorem splitWSAux_tokens (s : List Char) :
    ∀ tok, (∀ c ∈ tok, pySpace c = false) →
      ∀ t ∈ splitWSAux s tok, t ≠ [] ∧ ∀ c ∈ t, pySpace c = false := by
  induction s with
  | nil =>
    intro tok htok t ht
    by_cases he : tok.isEmpty
    · simp [splitWSAux, he] at ht
    · simp [splitWSAux, he] at ht
      subst ht
      refine ⟨?_, fun c hc => htok c (List.mem_reverse.mp hc)⟩
      intro hnil
      rw [List.reverse_eq_nil_iff] at hnil
      simp [hnil] at he
  | cons c rest ih =>
    intro tok htok t ht
    by_cases hs : pySpace c
    · by_cases he : tok.isEmpty
      · simp only [splitWSAux, hs, if_true, he] at ht
        exact ih [] (by simp) t ht
      · simp [splitWSAux, hs, he] at ht
        rcases ht with ht | ht
        · subst ht
          refine ⟨?_, fun d hd => htok d (List.mem_reverse.mp hd)⟩
          intro hnil
          rw [List.reverse_eq_nil_iff] at hnil
          simp [hnil] at he
        · exact ih [] (by simp) t ht
    · simp only [splitWSAux, hs, if_false] at ht
      refine ih (c :: tok) ?_ t ht
      intro d hd
      rcases List.mem_cons.mp hd with rfl | hd
      · simpa using hs
      · exact htok d hd

theorem not_space_of_pySpace_false (c : Char) (h : pySpace c = false) :
    (c == ' ') = false := by
  simp only [pySpace, Bool.or_eq_false_iff] at h
  exact h.1.1.1.1.1

theorem nds_of_no_space (t : List Char) (h : ∀ c ∈ t, (c == ' ') = false) :
    noDoubleSpace t = true := by
  induction t with
  | nil => rfl
  | cons a tl ih =>
    cases tl with
    | nil => rfl
    | cons b r =>
      simp only [noDoubleSpace, Bool.and_eq_true, Bool.not_eq_true']
      refine ⟨?_, ih (fun c hc => h c (List.mem_cons_of_mem a hc))⟩
      simp [h a (List.mem_cons_self a _)]

theorem nds_append (t l : List Char) (h : ∀ c ∈ t, (c == ' ') = false) :
    noDoubleSpace (t ++ l) = noDoubleSpace l := by
  induction t with
  | nil => rfl
  | cons a tl ih =>
    cases tl with
    | nil =>
      cases l with
      | nil => rfl
      | cons d l2 =>
        have hstep : noDoubleSpace ([a] ++ d :: l2) =
            (!(a == ' ' && d == ' ') && noDoubleSpace (d :: l2)) := rfl
        rw [hstep]
        simp [h a (List.mem_cons_self a _)]
    | cons b r =>
      have hih := ih (fun c hc => h c (List.mem_cons_of_mem a hc))
      have hstep : noDoubleSpace ((a :: b :: r) ++ l) =
          (!(a == ' ' && b == ' ') && noDoubleSpace ((b :: r) ++ l)) := rfl
      rw [hstep, hih]
      simp [h a (List.mem_cons_self a _)]

theorem joinTokens_cons (t2 : List Char) (ts : List (List Char)) :
    ∃ tail, joinTokens (t2 :: ts) = t2 ++ tail := by
  cases ts with
  | nil => exact ⟨[], by simp [joinTokens]⟩
  | cons t3 ts2 => exact ⟨' ' :: joinTokens (t3 :: ts2), rfl⟩

theorem nds_joinTokens (ts : List (List Char))
    (h : ∀ t ∈ ts, t ≠ [] ∧ ∀ c ∈ t, (c == ' ') = false) :
    noDoubleSpace (joinTokens ts) = true := by
  induction ts with
  | nil => rfl
  | cons t ts2 ih =>
    cases ts2 with
    | nil => exact nds_of_no_space t (h t (List.mem_cons_self t _)).2
    | cons t2 ts3 =>
      have ht := h t (List.mem_cons_self t _)
      have ht2 := h t2 (List.mem_cons_of_mem t (List.mem_cons_self t2 _))
      have hih := ih (fun u hu => h u (List.mem_cons_of_mem t hu))
      obtain ⟨tail, htail⟩ := joinTokens_cons t2 ts3
      have hjoin : joinTokens (t :: t2 :: ts3) = t ++ ' ' :: joinTokens (t2 :: ts3) := rfl
      rw [hjoin, nds_append t _ ht.2]
      obtain ⟨c2, t2x, rfl⟩ : ∃ c2 t2x, t2 = c2 :: t2x := by
        cases t2 with
        | nil => exact absurd rfl ht2.1
        | cons c2 t2x => exact ⟨c2, t2x, rfl⟩
      have hstep : noDoubleSpace (' ' :: joinTokens ((c2 :: t2x) :: ts3)) =
          (!((' ' == ' ') && (c2 == ' ')) &&
            noDoubleSpace (joinTokens ((c2 :: t2x) :: ts3))) := by
        rw [htail]
        rfl
      rw [hstep, hih]
      simp [ht2.2 c2 (List.mem_cons_self c2 _)]

theorem noDoubleSpace_normSpace (s : List Char) :
    noDoubleSpace (normSpace s) = true := by
  refine nds_joinTokens (splitWS s) ?_
  intro t ht
  have h := splitWSAux_tokens s [] (by simp) t ht
  exact ⟨h.1, fun c hc => not_space_of_pySpace_false c (h.2 c hc)⟩

/-! ## Claim theorems -/

/-- C1: the claim says the backup written before save equals the original,
unmodified input.  The code mutates `entry['command']` in place during the
rewrite loop (line 39) and only then dumps `commands` to the backup file
(lines 44-49), so on this input, whose single entry contains the flag, the
backup content is the rewritten entry list, which differs from the input
both as a value and as serialized text. -/
theorem c1_backup_contains_rewritten_output :
    fixCompileCommands defaultPath defaultPath
        (some (JsonVal.arr [JsonVal.obj [(cmdKey,
          JsonVal.str ("gcc -mno-direct-extern-access x.c").data)]])) =
      Except.ok ([(backupPath defaultPath,
          dumps (JsonVal.arr [JsonVal.obj [(cmdKey, JsonVal.str ("gcc x.c").data)]])),
        (defaultPath,
          dumps (JsonVal.arr [JsonVal.obj [(cmdKey, JsonVal.str ("gcc x.c").data)]]))],
        1) ∧
    JsonVal.arr [JsonVal.obj [(cmdKey, JsonVal.str ("gcc x.c").data)]] ≠
      JsonVal.arr [JsonVal.obj [(cmdKey,
        JsonVal.str ("gcc -mno-direct-extern-access x.c").data)]] ∧
    dumps (JsonVal.arr [JsonVal.obj [(cmdKey, JsonVal.str ("gcc x.c").data)]]) ≠
      dumps (JsonVal.arr [JsonVal.obj [(cmdKey,
        JsonVal.str ("gcc -mno-direct-extern-access x.c").data)]]) :=
  ⟨rfl, by decide, by decide⟩

/-- C2 counterexample: `[{}]` is valid JSON that violates the
array-of-objects-with-`command` shape, yet the load step returns it
unrejected, refuting "the load step itself rejects it". -/
theorem c2_load_accepts_malformed_shape :
    specWellShaped (JsonVal.arr [JsonVal.obj []]) = false ∧
    jsonLoad (some (JsonVal.arr [JsonVal.obj []])) =
      Except.ok (JsonVal.arr [JsonVal.obj []]) :=
  ⟨rfl, rfl⟩

/-- C2 amended: `load` fails exactly when the file is not valid JSON; a
parsed value violating the expected shape is returned as-is, and such
violations surface, if at all, only later during rewriting (here `[{}]`
raises `KeyError` in the rewrite loop). -/
theorem c2_amended_load_checks_only_json_validity :
    jsonLoad none = Except.error PyErr.jsonDecodeError ∧
    (∀ v : JsonVal, jsonLoad (some v) = Except.ok v) ∧
    processCommands (JsonVal.arr [JsonVal.obj []]) = Except.error PyErr.keyError :=
  ⟨rfl, fun _ => rfl, rfl⟩

/-- C3: on every successful run the reported modified count equals the
number of positions at which the `command` value differs between the input
entry list and the output entry list. -/
theorem c3_modified_count_accuracy (es es2 : List JsonVal) (n : Nat)
    (h : processList es = Except.ok (es2, n)) : n = countDiffCmd es es2 :=
  processList_count es es2 n h

/-- C3 witness: a two-entry run, one entry modified. -/
theorem c3_modified_count_accuracy_witness :
    processList
        [JsonVal.obj [(cmdKey, JsonVal.str ("gcc -mno-direct-extern-access a.c").data)],
          JsonVal.obj [(cmdKey, JsonVal.str ("gcc b.c").data)]] =
      Except.ok ([JsonVal.obj [(cmdKey, JsonVal.str ("gcc a.c").data)],
          JsonVal.obj [(cmdKey, JsonVal.str ("gcc b.c").data)]], 1) ∧
    1 = countDiffCmd
        [JsonVal.obj [(cmdKey, JsonVal.str ("gcc -mno-direct-extern-access a.c").data)],
          JsonVal.obj [(cmdKey, JsonVal.str ("gcc b.c").data)]]
        [JsonVal.obj [(cmdKey, JsonVal.str ("gcc a.c").data)],
          JsonVal.obj [(cmdKey, JsonVal.str ("gcc b.c").data)]] :=
  ⟨rfl, c3_modified_count_accuracy
    [JsonVal.obj [(cmdKey, JsonVal.str ("gcc -mno-direct-extern-access a.c").data)],
      JsonVal.obj [(cmdKey, JsonVal.str ("gcc b.c").data)]]
    [JsonVal.obj [(cmdKey, JsonVal.str ("gcc a.c").data)],
      JsonVal.obj [(cmdKey, JsonVal.str ("gcc b.c").data)]] 1 rfl⟩

/-- C4 counterexample: the claim's "deletes all occurrences ... and then
collapses whitespace runs" fails for a command without the flag: on
`'a  b'` deleting occurrences (none) and collapsing would give `'a b'`,
but the rewrite leaves the command, double space included, untouched,
because the cleanup runs only inside the `if flag in command` branch. -/
theorem c4_flag_free_command_not_normalized :
    fixStr ("a  b").data = ("a  b").data ∧
    normSpace (removeAll flagText ("a  b").data) = ("a b").data ∧
    fixStr ("a  b").data ≠ normSpace (removeAll flagText ("a  b").data) :=
  ⟨by decide, by decide, by decide⟩

/-- C4 amended: for every command in which the flag occurs, the rewrite
deletes all occurrences of the flag's exact text and then collapses
whitespace runs (splitting on whitespace and rejoining with single spaces,
which also trims the ends); commands without the flag are left unchanged;
the spec's example rewrites as stated with modified count 1. -/
theorem c4_amended_rewrite_removes_flag_then_collapses :
    (∀ cmd : List Char, isSubstr flagText cmd = true →
      fixStr cmd = normSpace (removeAll flagText cmd)) ∧
    (∀ cmd : List Char, isSubstr flagText cmd = false → fixStr cmd = cmd) ∧
    processList [JsonVal.obj [(cmdKey,
        JsonVal.str ("gcc -O2 -mno-direct-extern-access -Wall file.c").data)]] =
      Except.ok ([JsonVal.obj [(cmdKey,
        JsonVal.str ("gcc -O2 -Wall file.c").data)]], 1) :=
  ⟨fixStr_of_substr, fixStr_of_not_substr, rfl⟩

/-- C4 amended witness: the flag-bearing branch at a concrete command. -/
theorem c4_amended_rewrite_removes_flag_then_collapses_witness :
    isSubstr flagText ("gcc -mno-direct-extern-access x.c").data = true ∧
    fixStr ("gcc -mno-direct-extern-access x.c").data =
      normSpace (removeAll flagText ("gcc -mno-direct-extern-access x.c").data) :=
  ⟨by decide, c4_amended_rewrite_removes_flag_then_collapses.1
    (("gcc -mno-direct-extern-access x.c").data) (by decide)⟩

/-- C5 counterexample: the rewrite is not idempotent.  Removing all
occurrences of the flag can create a new occurrence: in
`'-mno-direct-ext-mno-direct-extern-accessern-access'` removing the single
embedded occurrence splices the surrounding text into the flag itself, so
a first pass yields the flag and a second pass yields the empty string. -/
theorem c5_rewrite_not_idempotent :
    processList [JsonVal.obj [(cmdKey,
        JsonVal.str ("-mno-direct-ext-mno-direct-extern-accessern-access").data)]] =
      Except.ok ([JsonVal.obj [(cmdKey, JsonVal.str flagText)]], 1) ∧
    processList [JsonVal.obj [(cmdKey, JsonVal.str flagText)]] =
      Except.ok ([JsonVal.obj [(cmdKey, JsonVal.str [])]], 1) ∧
    JsonVal.obj [(cmdKey, JsonVal.str [])] ≠ JsonVal.obj [(cmdKey, JsonVal.str flagText)] :=
  ⟨rfl, rfl, by decide⟩

/-- C5 amended: the rewrite is idempotent on every input whose
once-rewritten entries no longer contain the flag in their string
commands (true of ordinary compiler command lines, where removal cannot
splice together a new occurrence): a second pass returns the same entry
list and reports 0 modifications. -/
theorem c5_amended_rewrite_idempotent_once_flag_gone (es es2 : List JsonVal) (n : Nat)
    (h : processList es = Except.ok (es2, n))
    (hall : es2.all entryFlagFree = true) :
    processList es2 = Except.ok (es2, 0) :=
  processList_stable es es2 n h hall

/-- C5 amended witness: a second pass over a rewritten entry. -/
theorem c5_amended_rewrite_idempotent_once_flag_gone_witness :
    processList [JsonVal.obj [(cmdKey, JsonVal.str ("gcc -O2 x.c").data)]] =
      Except.ok ([JsonVal.obj [(cmdKey, JsonVal.str ("gcc -O2 x.c").data)]], 0) :=
  c5_amended_rewrite_idempotent_once_flag_gone
    [JsonVal.obj [(cmdKey, JsonVal.str ("gcc -O2 -mno-direct-extern-access x.c").data)]]
    [JsonVal.obj [(cmdKey, JsonVal.str ("gcc -O2 x.c").data)]] 1 rfl (by decide)

/-- C6: when the input file does not exist the process prints an error to
the error stream and exits with status 1 without reading or writing any
file; a run in which `fix_compile_commands` completes exits with 0. -/
theorem c6_missing_input_exits_one_success_zero (parsed : Option JsonVal) :
    (mainModel false parsed).exitCode = 1 ∧
    (mainModel false parsed).errorOutput =
      [("Error: build/compile_commands.json not found!").data] ∧
    (mainModel false parsed).readPaths = [] ∧
    (mainModel false parsed).writes = [] ∧
    (∀ ws n, fixCompileCommands defaultPath defaultPath parsed = Except.ok (ws, n) →
      (mainModel true parsed).exitCode = 0) := by
  refine ⟨rfl, rfl, rfl, rfl, ?_⟩
  intro ws n h
  simp [mainModel, h]

/-- C6 witness: missing input exits 1; a successful run exits 0. -/
theorem c6_missing_input_exits_one_success_zero_witness :
    (mainModel false (some (JsonVal.arr []))).exitCode = 1 ∧
    (mainModel true (some (JsonVal.arr []))).exitCode = 0 :=
  ⟨(c6_missing_input_exits_one_success_zero (some (JsonVal.arr []))).1,
    (c6_missing_input_exits_one_success_zero (some (JsonVal.arr []))).2.2.2.2
      [(backupPath defaultPath, dumps (JsonVal.arr [])),
        (defaultPath, dumps (JsonVal.arr []))] 0 rfl⟩

/-- C7: rewriting preserves entry count and order, and with every
`command` value masked out the output entries are identical to the input
entries: every key other than `command`, every key order, and every
non-`command` value is unchanged. -/
theorem c7_order_and_other_fields_preserved (es es2 : List JsonVal) (n : Nat)
    (h : processList es = Except.ok (es2, n)) :
    es2.length = es.length ∧ es2.map stripCmd = es.map stripCmd := by
  have hm := processList_stripCmd es es2 n h
  refine ⟨?_, hm⟩
  simpa using congrArg List.length hm

/-- C7 witness: an entry carrying a second field. -/
theorem c7_order_and_other_fields_preserved_witness :
    processList [JsonVal.obj [(("file").data, JsonVal.str ("x.c").data),
        (cmdKey, JsonVal.str ("gcc -mno-direct-extern-access x.c").data)]] =
      Except.ok ([JsonVal.obj [(("file").data, JsonVal.str ("x.c").data),
        (cmdKey, JsonVal.str ("gcc x.c").data)]], 1) ∧
    [JsonVal.obj [(("file").data, JsonVal.str ("x.c").data),
        (cmdKey, JsonVal.str ("gcc x.c").data)]].map stripCmd =
      [JsonVal.obj [(("file").data, JsonVal.str ("x.c").data),
        (cmdKey, JsonVal.str ("gcc -mno-direct-extern-access x.c").data)]].map stripCmd :=
  ⟨rfl, (c7_order_and_other_fields_preserved
    [JsonVal.obj [(("file").data, JsonVal.str ("x.c").data),
      (cmdKey, JsonVal.str ("gcc -mno-direct-extern-access x.c").data)]]
    [JsonVal.obj [(("file").data, JsonVal.str ("x.c").data),
      (cmdKey, JsonVal.str ("gcc x.c").data)]] 1 rfl).2⟩

/-- C8: any command containing the flag surrounded by spaces takes the
removal-plus-cleanup branch, and the rewritten command contains no run of
two or more consecutive spaces. -/
theorem c8_no_double_spaces_after_removal (cmd : List Char)
    (h : isSubstr ((" -mno-direct-extern-access ").data) cmd = true) :
    noDoubleSpace (fixStr cmd) = true := by
  have hflag : flagText <:+: (" -mno-direct-extern-access ").data :=
    ⟨[' '], [' '], by decide⟩
  have hsub : isSubstr flagText cmd = true := by
    rw [isSubstr_correct] at h ⊢
    exact hflag.trans h
  rw [fixStr_of_substr cmd hsub]
  exact noDoubleSpace_normSpace _

/-- C8 witness: a command with the space-surrounded flag. -/
theorem c8_no_double_spaces_after_removal_witness :
    isSubstr ((" -mno-direct-extern-access ").data)
      ("gcc -mno-direct-extern-access -Wall x.c").data = true ∧
    noDoubleSpace (fixStr ("gcc -mno-direct-extern-access -Wall x.c").data) = true :=
  ⟨by decide, c8_no_double_spaces_after_removal
    (("gcc -mno-direct-extern-access -Wall x.c").data) (by decide)⟩

/-- C9: an entry whose string command contains no configured flag passes
through the rewrite byte-identical and uncounted; in particular the
whitespace cleanup is never applied to it, so pre-existing double spaces
survive (see the witness). -/
theorem c9_flag_free_commands_untouched (kvs : List (List Char × JsonVal))
    (cmd : List Char) (h1 : dictGet kvs cmdKey = some (JsonVal.str cmd))
    (h2 : isSubstr flagText cmd = false) :
    processEntry (JsonVal.obj kvs) = Except.ok (JsonVal.obj kvs, false) ∧
    fixStr cmd = cmd := by
  refine ⟨?_, fixStr_of_not_substr cmd h2⟩
  simp [processEntry, h1, applyFlags, flagsToRemove, applyFlagStep, fixFlagStr, h2]

/-- C9 witness: a flag-free command with interior double spaces is kept
byte-identical, double spaces included. -/
theorem c9_flag_free_commands_untouched_witness :
    processEntry (JsonVal.obj [(cmdKey, JsonVal.str ("cc -O2  -Wall  a.c").data)]) =
      Except.ok (JsonVal.obj [(cmdKey, JsonVal.str ("cc -O2  -Wall  a.c").data)], false) ∧
    fixStr ("cc -O2  -Wall  a.c").data = ("cc -O2  -Wall  a.c").data :=
  c9_flag_free_commands_untouched [(cmdKey, JsonVal.str ("cc -O2  -Wall  a.c").data)]
    (("cc -O2  -Wall  a.c").data) rfl (by decide)

/-- C10: every successful run writes the output file, and the backup when
the output path equals the input path, unconditionally, serializing the
processed entries with the 2-space-indent dump; the modified count, 0
included, has no influence on the writes. -/
theorem c10_output_and_backup_written_unconditionally
    (inputFile outputFile : List Char) (v v2 : JsonVal) (n : Nat)
    (h : processCommands v = Except.ok (v2, n)) :
    fixCompileCommands inputFile inputFile (some v) =
      Except.ok ([(backupPath inputFile, dumps v2), (inputFile, dumps v2)], n) ∧
    (outputFile ≠ inputFile →
      fixCompileCommands inputFile outputFile (some v) =
        Except.ok ([(outputFile, dumps v2)], n)) := by
  constructor
  · simp [fixCompileCommands, jsonLoad, h]
  · intro hne
    simp [fixCompileCommands, jsonLoad, h, hne]

/-- C10 witness: a run with modified count 0 still writes backup and
output. -/
theorem c10_output_and_backup_written_unconditionally_witness :
    processCommands (JsonVal.arr [JsonVal.obj [(cmdKey, JsonVal.str ("gcc a.c").data)]]) =
      Except.ok (JsonVal.arr [JsonVal.obj [(cmdKey, JsonVal.str ("gcc a.c").data)]], 0) ∧
    fixCompileCommands defaultPath defaultPath
        (some (JsonVal.arr [JsonVal.obj [(cmdKey, JsonVal.str ("gcc a.c").data)]])) =
      Except.ok ([(backupPath defaultPath,
          dumps (JsonVal.arr [JsonVal.obj [(cmdKey, JsonVal.str ("gcc a.c").data)]])),
        (defaultPath,
          dumps (JsonVal.arr [JsonVal.obj [(cmdKey, JsonVal.str ("gcc a.c").data)]]))],
        0) :=
  ⟨rfl, (c10_output_and_backup_written_unconditionally defaultPath defaultPath
    (JsonVal.arr [JsonVal.obj [(cmdKey, JsonVal.str ("gcc a.c").data)]])
    (JsonVal.arr [JsonVal.obj [(cmdKey, JsonVal.str ("gcc a.c").data)]]) 0 rfl).1⟩
